import Mathlib

/-!
Verification of the mcp-forge request-dispatch framework (TypeScript)
against its natural-language specification.

The development shallowly embeds the relevant source functions:

* `src/core/errors.ts` — `formatError`, the `Forge` class
  (`executeWithMiddleware`, `setupServer` tool/resource/prompt/template
  handlers, `extractTemplateParams`, `templateToRegex`,
  `resourceTemplate` registration);
* `src/middleware/rateLimit.ts` — `rateLimit`;
* `src/middleware/cache.ts` — `cache`, `createCache`;
* `src/middleware/timeout.ts` — `timeout`;
* the retry middleware (`retry`, `calculateDelay`).

Promises with exceptions are modelled by `Except`; the mutable keyed
stores (`Map` objects) by association lists with JS-`Map` insertion
semantics; machine numbers (all integral in the verified paths) by
`Nat`/`Int`/`Rat`.
-/

namespace MCPForge

/-! ### Result envelopes (`CallToolResult` shape) and errors -/

/-- One item of the `content` array of a result envelope. -/
structure ContentItem where
  ctype : String
  text : String
  deriving DecidableEq, Repr

/-- The standard result envelope `{content, isError?}`; `isError` is an
optional field in JS, hence `Option Bool`. -/
structure Envelope where
  content : List ContentItem
  isError : Option Bool
  deriving DecidableEq, Repr

/-- A thrown JS value: either an `Error` object (with a `message`) or any
other value (represented by its string conversion), mirroring
`error instanceof Error ? error.message : String(error)`. -/
inductive JSError where
  | errObj (msg : String)
  | otherVal (s : String)
  deriving DecidableEq, Repr

/-- The message `formatError` extracts from a thrown value. -/
def errMessage : JSError → String
  | .errObj m => m
  | .otherVal s => s

/-- `formatError` from `src/core/errors.ts`: wraps any thrown value into
`{content: [{type: "text", text: "Error: <message>"}], isError: true}`. -/
def formatError (e : JSError) : Envelope :=
  { content := [{ ctype := "text", text := "Error: " ++ errMessage e }],
    isError := some true }

/-! ### Middleware contexts and the middleware chain -/

/-- The three MCP primitive kinds. -/
inductive HType where
  | tool
  | resource
  | prompt
  deriving DecidableEq, Repr

/-- `MiddlewareContext` from `src/core/Forge`: the validated args are kept
as their JSON serialization (they are only compared / serialized by the
middleware under verification); the Zod schema handle is opaque and
omitted. -/
structure Ctx where
  name : String
  argsJson : String
  htype : HType
  deriving DecidableEq, Repr

/-- `ForgeMiddleware`: `(ctx, next) => Promise<unknown>`, with the promise
modelled as `Except JSError α`. -/
def Middleware (α : Type) := Ctx → (Unit → Except JSError α) → Except JSError α

/-- `executeWithMiddleware`: the index-recursive `runner` — middleware run
in registration order, each receiving a `next` continuation that runs the
rest of the list and finally the terminal handler. -/
def runChain {α : Type} : List (Middleware α) → Ctx → (Unit → Except JSError α) → Except JSError α
  | [], _, h => h ()
  | m :: ms, ctx, h => m ctx (fun _ => runChain ms ctx h)

/-! ### Dispatcher-boundary wrappers (`setupServer`) -/

/-- A tool handler's raw return value, as discriminated by the dispatcher:
an object carrying a `content` member (returned unchanged), a string
(wrapped as one text item), or any other value (wrapped as its
`JSON.stringify(result, null, 2)` text). -/
inductive ToolValue where
  | envelope (env : Envelope)
  | str (s : String)
  | otherJson (stringified : String)
  deriving DecidableEq, Repr

/-- Result normalization in the tool path of `setupServer`: a result with
a `content` member passes through unchanged; otherwise it is wrapped into
a single text-content envelope (no `isError` field). -/
def normalizeToolResult : ToolValue → Envelope
  | .envelope env => env
  | .str s => { content := [{ ctype := "text", text := s }], isError := none }
  | .otherJson j => { content := [{ ctype := "text", text := j }], isError := none }

/-- The tool invocation handler registered by `setupServer`: parse the
args, run the middleware chain ending in the tool handler, normalize, and
catch every exception into `formatError`.  The function is total: a tool
caller always receives an `Envelope`. -/
def toolCall (parse : String → Except JSError String)
    (mws : List (Middleware ToolValue))
    (handler : String → Except JSError ToolValue)
    (name raw : String) : Envelope :=
  match (do
      let v ← parse raw
      runChain mws { name := name, argsJson := v, htype := .tool }
        (fun _ => handler v)) with
  | .ok r => normalizeToolResult r
  | .error e => formatError e

/-- A resource handler's result: `{text}` or `{blob, mimeType?}`. -/
inductive ResourceValue where
  | text (s : String)
  | blob (b : String) (mimeType : Option String)
  deriving DecidableEq, Repr

/-- The resource read handler registered by `setupServer`: runs the chain
and wraps the result into `{contents: [{uri, ...result}]}`; its
`catch (error) { throw error; }` rethrows unchanged, so the `Except`
error is propagated as-is. -/
def resourceCall (mws : List (Middleware ResourceValue))
    (handler : Unit → Except JSError ResourceValue)
    (name uri : String) : Except JSError (List (String × ResourceValue)) := do
  let r ← runChain mws { name := name, argsJson := uri, htype := .resource }
      (fun _ => handler ())
  pure [(uri, r)]

/-- A prompt handler's result (`GetPromptResult`), kept opaque: only its
identity matters at the dispatcher boundary. -/
structure PromptValue where
  messagesJson : String
  deriving DecidableEq, Repr

/-- The prompt handler registered by `setupServer`: parse the args, run
the chain, return the result; its `catch (error) { throw error; }`
rethrows unchanged. -/
def promptCall (parse : String → Except JSError String)
    (mws : List (Middleware PromptValue))
    (handler : String → Except JSError PromptValue)
    (name raw : String) : Except JSError PromptValue := do
  let v ← parse raw
  runChain mws { name := name, argsJson := v, htype := .prompt }
    (fun _ => handler v)

/-! ### JS `Map` model

The middleware keep their keyed state in JS `Map` objects.  A `Map` is
modelled as an association list without duplicate keys: `set` of an
existing key updates it in place (preserving insertion order), `set` of a
new key appends, `delete` removes, `size` is the length. -/

/-- `Map.get`. -/
def mget {α : Type} (m : List (String × α)) (k : String) : Option α :=
  (m.find? (fun p => p.1 = k)).map (·.2)

/-- `Map.set`. -/
def mset {α : Type} (m : List (String × α)) (k : String) (v : α) : List (String × α) :=
  if (m.find? (fun p => p.1 = k)).isSome then
    m.map (fun p => if p.1 = k then (k, v) else p)
  else
    m ++ [(k, v)]

/-- `Map.delete`. -/
def mdel {α : Type} (m : List (String × α)) (k : String) : List (String × α) :=
  m.filter (fun p => ¬ p.1 = k)

/-! ### Rate limiting middleware (`src/middleware/rateLimit.ts`) -/

/-- `RateLimitBucket`: `{count, resetTime}` (times in ms, as `Nat`). -/
structure Bucket where
  count : Nat
  resetTime : Nat
  deriving DecidableEq, Repr

/-- The per-middleware bucket store. -/
def RLState := List (String × Bucket)

/-- The bucket key: `keyGenerator(ctx)` if configured, else
`type:name` when `perHandler`, else `"global"`. -/
def rlKey (keyGen : Option (Ctx → String)) (perHandler : Bool) (ctx : Ctx) : String :=
  match keyGen with
  | some g => g ctx
  | none =>
    if perHandler then
      (match ctx.htype with
       | .tool => "tool"
       | .resource => "resource"
       | .prompt => "prompt") ++ ":" ++ ctx.name
    else "global"

/-- The denial envelope built by `rateLimit`; the number of seconds in the
text is `Math.ceil(retryAfterMs / 1000)`. -/
def rateLimitEnvelope (name : String) (retryAfterMs : Nat) : Envelope :=
  let msg := "Rate limit exceeded for " ++ name ++ ". Please try again in "
    ++ toString ((retryAfterMs + 999) / 1000) ++ " seconds."
  { content := [{ ctype := "text", text := msg }], isError := some true }

/-- Outcome of one pass through the rate-limit middleware: either denied
(short-circuit with the denial envelope, carrying the `retryAfterMs`
reported to `onRateLimited`) or passed through to `next()`. -/
inductive RLOutcome where
  | limited (retryAfterMs : Nat) (env : Envelope)
  | proceeded
  deriving DecidableEq, Repr

/-- One invocation of the `rateLimit` middleware body at time `now` for
bucket key `key`: look up the bucket, replace it by a fresh
`{count: 0, resetTime: now + windowMs}` if absent or expired
(`now >= resetTime`), store it, deny without incrementing when
`count >= maxRequests`, else increment and proceed to `next()`. -/
def rateLimitStep (maxRequests windowMs : Nat) (now : Nat) (name key : String)
    (st : RLState) : RLOutcome × RLState :=
  let bucket : Bucket :=
    match mget st key with
    | some b => if now ≥ b.resetTime then { count := 0, resetTime := now + windowMs } else b
    | none => { count := 0, resetTime := now + windowMs }
  -- the (possibly fresh) bucket object is stored in the map before the check
  let st1 : RLState := mset st key bucket
  if bucket.count ≥ maxRequests then
    let retryAfterMs := bucket.resetTime - now
    (.limited retryAfterMs (rateLimitEnvelope name retryAfterMs), st1)
  else
    (.proceeded, mset st1 key { bucket with count := bucket.count + 1 })

/-- A sequence of invocations at the given times (same key throughout),
returning the outcomes in order and the final store. -/
def rateLimitRun (maxRequests windowMs : Nat) (name key : String) :
    List Nat → RLState → List RLOutcome × RLState
  | [], st => ([], st)
  | t :: ts, st =>
    let p := rateLimitStep maxRequests windowMs t name key st
    let q := rateLimitRun maxRequests windowMs name key ts p.2
    (p.1 :: q.1, q.2)

/-! ### Caching middleware (`src/middleware/cache.ts`) -/

/-- `CacheEntry`: `{value, expiresAt}`; the cached value is the (typed)
result of `next()`. -/
structure CacheEntry (α : Type) where
  value : α
  expiresAt : Nat
  deriving DecidableEq, Repr

/-- The state closed over by one `cache(options)` middleware: the entry
`Map` and the explicit access-order array (most-recently-used last). -/
structure CacheState (α : Type) where
  store : List (String × CacheEntry α)
  accessOrder : List String
  deriving DecidableEq, Repr

/-- The empty cache state. -/
def CacheState.empty {α : Type} : CacheState α := { store := [], accessOrder := [] }

/-- Remove the first occurrence of `k` (the `indexOf` + `splice(idx, 1)`
idiom; no change when `k` is absent). -/
def removeFirst : List String → String → List String
  | [], _ => []
  | x :: xs, k => if x = k then xs else x :: removeFirst xs k

/-- `updateAccessOrder`: move (or insert) `key` to the tail. -/
def updateAccessOrder (order : List String) (key : String) : List String :=
  removeFirst order key ++ [key]

/-- The `while (store.size >= maxEntries && accessOrder.length > 0)` loop
of `evictIfNeeded`: shift the head of the access order, then
`if (oldest) store.delete(oldest)` — a JS *truthiness* guard, so the
delete is skipped when the shifted key is the empty string (the only
falsy value a `String` head can take); the loop then continues with the
store size unchanged and evicts a later key instead. -/
def evictLoop {α : Type} (maxEntries : Nat) :
    List String → List (String × CacheEntry α) → List String × List (String × CacheEntry α)
  | [], store => ([], store)
  | h :: t, store =>
    if store.length ≥ maxEntries then
      evictLoop maxEntries t (if h = "" then store else mdel store h)
    else (h :: t, store)

/-- `evictIfNeeded`. -/
def evictIfNeeded {α : Type} (maxEntries : Nat) (st : CacheState α) : CacheState α :=
  let p := evictLoop maxEntries st.accessOrder st.store
  { store := p.2, accessOrder := p.1 }

/-- Literal of an `HType`, as interpolated into default keys. -/
def htypeStr : HType → String
  | .tool => "tool"
  | .resource => "resource"
  | .prompt => "prompt"

/-- `generateKey`: the custom generator if configured (may return `null`
to bypass caching), else `type:name:JSON.stringify(args)`. -/
def cacheKey (keyGen : Option (Ctx → Option String)) (ctx : Ctx) : Option String :=
  match keyGen with
  | some g => g ctx
  | none => some (htypeStr ctx.htype ++ ":" ++ ctx.name ++ ":" ++ ctx.argsJson)

/-- One invocation of the `cache` middleware body at time `now`.
`nextVal` is the outcome `next()` would produce if invoked.  Returns the
middleware's outcome, whether `next()` was invoked, and the new state.

Paths, in source order: non-cached type → passthrough; `null` key →
passthrough; fresh entry (`now < expiresAt`) → hit (return the stored
value, touch recency, `next` not invoked); otherwise miss → invoke
`next()`; a rejection propagates (nothing stored); a value is stored
after `evictIfNeeded()` under `expiresAt = now + ttlMs` and the key is
touched. -/
def cacheMw {α : Type} (ttlMs maxEntries : Nat) (types : List HType)
    (keyGen : Option (Ctx → Option String)) (now : Nat) (ctx : Ctx)
    (st : CacheState α) (nextVal : Except JSError α) :
    Except JSError α × Bool × CacheState α :=
  if ¬ types.contains ctx.htype then (nextVal, true, st)
  else
    match cacheKey keyGen ctx with
    | none => (nextVal, true, st)
    | some key =>
      match mget st.store key with
      | some entry =>
        if now < entry.expiresAt then
          (.ok entry.value, false,
            { st with accessOrder := updateAccessOrder st.accessOrder key })
        else cacheMiss ttlMs maxEntries now key st nextVal
      | none => cacheMiss ttlMs maxEntries now key st nextVal
where
  /-- The miss path: run `next()`, then `evictIfNeeded(); store.set(key,
  {value, expiresAt: now + ttlMs}); updateAccessOrder(key)`. -/
  cacheMiss (ttlMs maxEntries now : Nat) (key : String) (st : CacheState α)
      (nextVal : Except JSError α) : Except JSError α × Bool × CacheState α :=
    match nextVal with
    | .error e => (.error e, true, st)
    | .ok v =>
      let st1 := evictIfNeeded maxEntries st
      (.ok v, true,
        { store := mset st1.store key { value := v, expiresAt := now + ttlMs },
          accessOrder := updateAccessOrder st1.accessOrder key })

/-- The pair returned by `createCache`: the middleware produced by
`cache(options)` closes over its own store (`mid`); `createCache` then
creates a *second, separate* store (`exposed`) and its `clear()` empties
only that one. -/
structure CreateCacheState (α : Type) where
  mid : CacheState α
  exposed : List (String × CacheEntry α)
  deriving DecidableEq, Repr

/-- `clear()` from `createCache`: `store.clear()` on the second map. -/
def createCacheClear {α : Type} (s : CreateCacheState α) : CreateCacheState α :=
  { s with exposed := [] }

/-- The middleware returned by `createCache` acts on the state cached by
`cache(options)` (`mid`); the `exposed` map is never read or written. -/
def createCacheMw {α : Type} (ttlMs maxEntries : Nat) (types : List HType)
    (keyGen : Option (Ctx → Option String)) (now : Nat) (ctx : Ctx)
    (s : CreateCacheState α) (nextVal : Except JSError α) :
    Except JSError α × Bool × CreateCacheState α :=
  let r := cacheMw ttlMs maxEntries types keyGen now ctx s.mid nextVal
  (r.1, r.2.1, { s with mid := r.2.2 })

/-! ### Timeout middleware (`src/middleware/timeout.ts`)

The middleware wraps `next()` in a `new Promise` that races a
`setTimeout(ms)` timer against the downstream continuation, guarded by a
`settled` flag.  The race is embedded as a small event machine: the JS
event loop delivers `timerFire` / `dsResolve` / `dsReject` callbacks in
some order, and each callback body is translated literally into a step
function.  `clearTimeout` is modelled by a `timerActive` flag that makes
a later `timerFire` a no-op (in JS the callback simply never runs). -/

/-- An apostrophe (U+0027), as used in the default timeout message. -/
def squote : String := (Char.ofNat 39).toString

/-- The timeout error envelope: `{content: [{type: "text", text:
"Error: <message>"}], isError: true}` with default message
`Handler '<name>' timed out after <ms>ms`. -/
def timeoutEnvelope (name : String) (ms : Nat) : Envelope :=
  let msg := "Handler " ++ squote ++ name ++ squote ++ " timed out after "
    ++ toString ms ++ "ms"
  { content := [{ ctype := "text", text := "Error: " ++ msg }], isError := some true }

/-- What the timeout middleware's promise resolves with: the downstream
value, or the timeout envelope. -/
inductive TimeoutResult (α : Type) where
  | fromNext (v : α)
  | timedOut (env : Envelope)
  deriving Repr

/-- A callback delivered by the event loop to the middleware's closures. -/
inductive TOEvent (α : Type) where
  | timerFire
  | dsResolve (v : α)
  | dsReject (e : JSError)
  deriving Repr

/-- The middleware's closure state: the `settled` flag, whether the timer
is still pending, and the outer promise's settlement (if any). -/
structure TOState (α : Type) where
  settled : Bool
  timerActive : Bool
  outcome : Option (Except JSError (TimeoutResult α))
  deriving Repr

/-- State before any callback runs. -/
def TOState.init {α : Type} : TOState α :=
  { settled := false, timerActive := true, outcome := none }

/-- One callback, translated from the source: the timer body resolves with
the timeout envelope if not settled; the `then` body cancels the timer and
resolves with the result if not settled; the `catch` body cancels the
timer and rejects with the error if not settled. -/
def toStep {α : Type} (name : String) (ms : Nat) : TOState α → TOEvent α → TOState α
  | st, .timerFire =>
    if st.timerActive && !st.settled then
      { settled := true, timerActive := st.timerActive,
        outcome := some (.ok (.timedOut (timeoutEnvelope name ms))) }
    else st
  | st, .dsResolve v =>
    if !st.settled then
      { settled := true, timerActive := false, outcome := some (.ok (.fromNext v)) }
    else st
  | st, .dsReject e =>
    if !st.settled then
      { settled := true, timerActive := false, outcome := some (.error e) }
    else st

/-- Run the callbacks in delivery order. -/
def toRun {α : Type} (name : String) (ms : Nat) (evs : List (TOEvent α)) : TOState α :=
  evs.foldl (toStep name ms) TOState.init

/-! ### Retry middleware (`retry` / `calculateDelay`) -/

/-- The `for (attempt = 1; attempt <= maxRetries + 1; ...)` loop of the
retry middleware, with `idx` the number of `next()` calls already made
(so the running attempt is `idx + 1`) and `r` the retries still allowed
after this attempt.  `next idx` is the outcome of the `(idx+1)`-th
invocation of the downstream continuation.  Returns the overall outcome
and the total number of `next()` invocations performed.

On an exception: when no retries remain (`attempt > maxRetries`, i.e.
`r = 0`) or `shouldRetry` rejects the error, it is rethrown; otherwise
the loop sleeps and retries. -/
def retryGo (sr : JSError → Bool) (next : Nat → Except JSError α) :
    Nat → Nat → Except JSError α × Nat
  | idx, r =>
    match next idx with
    | .ok v => (.ok v, 1)
    | .error e =>
      match r with
      | 0 => (.error e, 1)
      | r' + 1 =>
        if sr e then
          let p := retryGo sr next (idx + 1) r'
          (p.1, p.2 + 1)
        else (.error e, 1)

/-- The retry middleware body: up to `maxRetries + 1` total attempts. -/
def retryRun (maxRetries : Nat) (sr : JSError → Bool)
    (next : Nat → Except JSError α) : Except JSError α × Nat :=
  retryGo sr next 0 maxRetries

/-- `Math.round` for JS numbers (here exact rationals): round half toward
positive infinity. -/
def jsRound (q : ℚ) : ℤ := ⌊q + 1 / 2⌋

/-- `calculateDelay` from the retry middleware, over exact rationals
(every verified path of the JS float computation is exact):
`delay = min(initialDelayMs * backoffMultiplier^(attempt-1), maxDelayMs)`,
jitter `delay * jitter * (rand * 2 - 1)` with `rand` the `Math.random()`
draw, clamp at `0`, `Math.round`. -/
def calculateDelay (initialDelayMs maxDelayMs backoffMultiplier jitter rand : ℚ)
    (attempt : Nat) : ℤ :=
  let delay1 := initialDelayMs * backoffMultiplier ^ (attempt - 1)
  let delay2 := min delay1 maxDelayMs
  let jitterAmount := delay2 * jitter * (rand * 2 - 1)
  let delay3 := max 0 (delay2 + jitterAmount)
  jsRound delay3

/-! ### URI templates (`Forge.extractTemplateParams` / `Forge.templateToRegex`)

The characters `{` and `}` are written `Char.ofNat 123` / `Char.ofNat 125`
throughout. -/

/-- `{` -/
def lbrace : Char := Char.ofNat 123

/-- `}` -/
def rbrace : Char := Char.ofNat 125

/-- The character class `[.*+?^${}()|[\]\\]` of the escaping `replace`. -/
def regexSpecials : List Char :=
  ['.', '*', '+', '?', '^', '$', lbrace, rbrace, '(', ')', '|', '[', ']', '\\']

/-- The escaping step of `templateToRegex`: each special character is
replaced by `"\\" + char`, except `{` and `}`, which the callback returns
unchanged. -/
def escapeChars (cs : List Char) : List Char :=
  cs.flatMap (fun c =>
    if c ∈ regexSpecials then
      if c = lbrace ∨ c = rbrace then [c] else ['\\', c]
    else [c])

/-- Global scan of `replace(/\{([^}]+)\}/g, ...)` for parameter names: a
match is `{`, a nonempty run of non-`}` characters (greedy), then `}`;
on failure the scan advances one character, on success it resumes after
the match. -/
def extractParamsAux : List Char → List String
  | [] => []
  | c :: rest =>
    if c = lbrace then
      let run := rest.takeWhile (fun x => ¬ x = rbrace)
      let after := rest.drop run.length
      if run ≠ [] ∧ after.head? = some rbrace then
        run.asString :: extractParamsAux after.tail
      else extractParamsAux rest
    else extractParamsAux rest
termination_by cs => cs.length
decreasing_by
  all_goals simp only [List.length_cons, List.length_drop, List.length_tail]
  all_goals omega

/-- The replacement `replace(/\\\{([^}]+)\\\}/g, "([^/]+)")` of
`templateToRegex`, scanned left to right.  A match requires a literal
backslash, `{`, a nonempty `[^}]+` capture, a literal backslash, and `}`:
after the greedy `[^}]+`, the two trailing pattern atoms force the run of
non-`}` characters following `\{` to end in a backslash and be followed
by `}`. -/
def substAux : List Char → List Char
  | [] => []
  | [c1] => [c1]
  | c1 :: c2 :: rest2 =>
    if c1 = '\\' ∧ c2 = lbrace then
      let run := rest2.takeWhile (fun x => ¬ x = rbrace)
      let after := rest2.drop run.length
      if run.length ≥ 2 ∧ run.getLast? = some '\\' ∧ after.head? = some rbrace then
        "([^/]+)".toList ++ substAux after.tail
      else c1 :: substAux (c2 :: rest2)
    else c1 :: substAux (c2 :: rest2)
termination_by cs => cs.length
decreasing_by
  all_goals simp only [List.length_cons, List.length_drop, List.length_tail]
  all_goals omega

/-- `extractTemplateParams`: ordered parameter names of a template. -/
def extractTemplateParams (template : String) : List String :=
  extractParamsAux template.toList

/-- The regex source built by `templateToRegex`:
`"^" + escaped-and-substituted + "$"`. -/
def templateRegexSource (template : String) : String :=
  "^" ++ (substAux (escapeChars template.toList)).asString ++ "$"

/-! #### Interpretation of the compiled regex

The patterns `templateToRegex` can produce contain only: characters
preceded by a backslash (escaped specials — literals), the seven-character
group `([^/]+)` introduced by the substitution, and bare characters.  Bare
characters other than `{`/`}` are non-special by construction of the
escaping step, and a bare `{`/`}` that does not form a valid quantifier is
a literal in JS (Annex B `ExtendedPatternCharacter`) — the case for every
pattern evaluated below. -/

/-- A token of the compiled pattern: a literal character, or the capture
group `([^/]+)`. -/
inductive RTok where
  | lit (c : Char)
  | group
  deriving DecidableEq, Repr

/-- Token list of the group `([^/]+)`. -/
def groupChars : List Char := "([^/]+)".toList

/-- Tokenize a compiled pattern (anchors excluded). -/
def parsePat : List Char → List RTok
  | [] => []
  | c :: rest =>
    if h7 : (c :: rest).take 7 = groupChars then .group :: parsePat ((c :: rest).drop 7)
    else if c = '\\' then
      match rest with
      | c2 :: rest2 => .lit c2 :: parsePat rest2
      | [] => []
    else .lit c :: parsePat rest
termination_by cs => cs.length
decreasing_by
  · have h := congrArg List.length h7
    rw [List.length_take, show groupChars.length = 7 from rfl] at h
    simp only [List.length_drop, List.length_cons] at h ⊢
    omega
  · simp only [List.length_cons]; omega
  · simp only [List.length_cons]; omega

/-- Length of the maximal prefix of non-`/` characters (what `[^/]+` can
consume at most). -/
def runLen (xs : List Char) : Nat := (xs.takeWhile (fun c => ¬ c = '/')).length

/-- Anchored backtracking matcher with captures for the token language,
implementing the JS semantics: a literal consumes its character; `([^/]+)`
greedily captures the longest run of one-or-more non-`/` characters that
lets the rest of the pattern match (longest first, backtracking).
Returns the capture list (`match[1..]`) on success. -/
def patMatch : List RTok → List Char → Option (List String)
  | [], xs => if xs.isEmpty then some [] else none
  | .lit c :: ps, xs =>
    match xs with
    | [] => none
    | x :: rest => if x = c then patMatch ps rest else none
  | .group :: ps, xs =>
    (List.range (runLen xs)).findSome? (fun i =>
      let k := runLen xs - i
      (patMatch ps (xs.drop k)).map (fun caps => (xs.take k).asString :: caps))
termination_by ps _ => ps.length

/-- The matching done by the resource-template read handler: run the
compiled regex against the URI; on success, bind the extracted parameter
names positionally to the captures (`match[index + 1] || ""`). -/
def templateMatch (template uri : String) : Option (List (String × String)) :=
  match patMatch (parsePat (substAux (escapeChars template.toList))) uri.toList with
  | none => none
  | some caps =>
    some ((extractTemplateParams template).enum.map
      (fun p => (p.2, caps.getD p.1 "")))

/-! ### Resource-template registration (`Forge.resourceTemplate`) -/

/-- A stored `ResourceTemplateDefinition` (schema and handler are opaque
to registration and omitted). -/
structure ResourceTemplateDef where
  name : String
  uriTemplate : String
  description : Option String
  mimeType : Option String
  deriving DecidableEq, Repr

/-- The part of the `Forge` instance state relevant to template
registration. -/
structure ForgeState where
  resourceTemplates : List ResourceTemplateDef
  deriving DecidableEq, Repr

/-- A fresh `Forge` instance. -/
def ForgeState.init : ForgeState := { resourceTemplates := [] }

/-- `Forge.resourceTemplate`: unconditionally pushes the definition onto
the list and returns `this`; no validation of the template occurs here
(nor later in `setupServer`). -/
def resourceTemplateReg (f : ForgeState) (name uriTemplate : String)
    (description mimeType : Option String) : ForgeState :=
  let tdef : ResourceTemplateDef :=
    { name := name, uriTemplate := uriTemplate,
      description := description, mimeType := mimeType }
  { f with resourceTemplates := f.resourceTemplates ++ [tdef] }

/-! ## Helper lemmas -/

theorem find?_map_upd {α : Type} (k : String) (v : α) :
    ∀ (t : List (String × α)), (t.find? (fun q => q.1 = k)).isSome →
      (t.map (fun p => if p.1 = k then (k, v) else p)).find? (fun q => q.1 = k) = some (k, v) := by
  intro t
  induction t with
  | nil => intro h; simp at h
  | cons q t ih =>
    intro h
    by_cases hq : q.1 = k
    · simp [List.find?_cons, hq]
    · simp only [List.map_cons, if_neg hq]
      rw [List.find?_cons_of_neg _ (by simpa using hq)]
      rw [List.find?_cons_of_neg _ (by simpa using hq)] at h
      exact ih h

theorem find?_append_none {α : Type} (pred : String × α → Bool) (t l : List (String × α)) :
    t.find? pred = none → (t ++ l).find? pred = l.find? pred := by
  induction t with
  | nil => intro _; simp
  | cons q t ih =>
    intro h
    rw [List.find?_cons] at h
    cases hq : pred q with
    | true => simp [hq] at h
    | false =>
      simp only [hq] at h
      simp only [List.cons_append, List.find?_cons, hq]
      exact ih h

theorem mget_mset_self {α : Type} (m : List (String × α)) (k : String) (v : α) :
    mget (mset m k v) k = some v := by
  unfold mget mset
  by_cases h : (m.find? (fun p => p.1 = k)).isSome
  · rw [if_pos h, find?_map_upd k v m h]
    rfl
  · rw [if_neg h]
    rw [find?_append_none _ m _ (by revert h; cases m.find? (fun p => p.1 = k) <;> simp)]
    simp [List.find?_cons]

/-! ## Claim C2: dispatcher-boundary error asymmetry -/

/-- Claim C2: for every registered tool, any failure of an invocation
(validation failure, middleware exception, or handler exception) is caught
at the dispatcher boundary and returned as the standard error envelope
`{content: [{type: "text", text: "Error: <message>"}], isError: true}`;
for every registered resource and prompt, an exception from the handler or
middleware chain propagates unchanged to the caller. -/
theorem c2_tool_envelope_resource_prompt_rethrow :
    (∀ (parse : String → Except JSError String) (mws : List (Middleware ToolValue))
        (handler : String → Except JSError ToolValue) (name raw : String) (e : JSError),
      (do
        let v ← parse raw
        runChain mws { name := name, argsJson := v, htype := HType.tool }
          (fun _ => handler v)) = Except.error e →
      toolCall parse mws handler name raw =
        { content := [{ ctype := "text", text := "Error: " ++ errMessage e }],
          isError := some true })
    ∧ (∀ (mws : List (Middleware ResourceValue))
        (handler : Unit → Except JSError ResourceValue) (name uri : String) (e : JSError),
      runChain mws { name := name, argsJson := uri, htype := HType.resource }
          (fun _ => handler ()) = Except.error e →
      resourceCall mws handler name uri = Except.error e)
    ∧ (∀ (parse : String → Except JSError String) (mws : List (Middleware PromptValue))
        (handler : String → Except JSError PromptValue) (name raw : String) (e : JSError),
      (do
        let v ← parse raw
        runChain mws { name := name, argsJson := v, htype := HType.prompt }
          (fun _ => handler v)) = Except.error e →
      promptCall parse mws handler name raw = Except.error e) := by
  refine ⟨?_, ?_, ?_⟩
  · intro parse mws handler name raw e h
    unfold toolCall
    rw [h]
    rfl
  · intro mws handler name uri e h
    unfold resourceCall
    rw [h]
    rfl
  · intro parse mws handler name raw e h
    unfold promptCall
    exact h

/-- Witness for C2 at concrete failing pipelines. -/
theorem c2_witness :
    toolCall (fun _ => Except.error (JSError.errObj "bad")) []
        (fun _ => Except.ok (ToolValue.str "ok")) "t" "x" =
      { content := [{ ctype := "text", text := "Error: bad" }], isError := some true }
    ∧ resourceCall [] (fun _ => Except.error (JSError.errObj "boom")) "r" "file:///x" =
      Except.error (JSError.errObj "boom")
    ∧ promptCall (fun _ => Except.ok "v") []
        (fun _ => Except.error (JSError.errObj "p")) "p" "x" =
      Except.error (JSError.errObj "p") :=
  ⟨c2_tool_envelope_resource_prompt_rethrow.1 _ _ _ _ _ (JSError.errObj "bad") rfl,
   c2_tool_envelope_resource_prompt_rethrow.2.1 _ _ _ _ (JSError.errObj "boom") rfl,
   c2_tool_envelope_resource_prompt_rethrow.2.2 _ _ _ _ _ (JSError.errObj "p") rfl⟩

/-! ## Claim C9: duplicate template parameter names -/

/-- Claim C9 counterexample: the claim states that registering a URI
template with a duplicate parameter name fails with a `TemplateError`;
in the code, registration is unconditional (no duplicate check or
`TemplateError` exists anywhere), so registering `db://a/{x}/{x}`
succeeds and `extractTemplateParams` returns the name twice. -/
theorem c9_counterexample :
    (resourceTemplateReg ForgeState.init "user" "db://a/{x}/{x}" none none).resourceTemplates =
      [{ name := "user", uriTemplate := "db://a/{x}/{x}", description := none, mimeType := none }]
    ∧ extractTemplateParams "db://a/{x}/{x}" = ["x", "x"] := by
  constructor
  · rfl
  · simp [extractTemplateParams, extractParamsAux, lbrace, rbrace, List.asString]

/-- Claim C9 (amended): `resourceTemplate` registration always succeeds,
for every template — it unconditionally appends the definition; templates
with duplicate parameter names are accepted without any error. -/
theorem c9_registration_unconditional (f : ForgeState) (name uriTemplate : String)
    (description mimeType : Option String) :
    (resourceTemplateReg f name uriTemplate description mimeType).resourceTemplates =
      f.resourceTemplates ++
        [{ name := name, uriTemplate := uriTemplate,
           description := description, mimeType := mimeType }] := rfl

/-! ## Claim C1: URI-template compilation and matching -/

/-- Claim C1 (code bug): the claim (and `templateToRegex`'s own doc
comment) says `{name}` placeholders become `([^/]+)` capture groups, so
that `a/{x}/{y}` matches `a/1/2` with `{x: "1", y: "2"}`.  In the code,
the escaping step leaves `{`/`}` unescaped while the substitution step
searches for backslash-escaped `\{name\}`, so the substitution never
fires: the compiled source is the literal `^a/{x}/{y}$`, `a/1/2` does
not match (the handler throws), and only the literal template text
itself matches — with every parameter bound to `""`.  The last conjunct
shows that under the same regex semantics the intended pattern
`a/([^/]+)/([^/]+)` does capture `["1", "2"]`. -/
theorem c1_template_compile_bug :
    templateRegexSource "a/{x}/{y}" = "^a/{x}/{y}$"
    ∧ templateMatch "a/{x}/{y}" "a/1/2" = none
    ∧ templateMatch "a/{x}/{y}" "a/1" = none
    ∧ extractTemplateParams "a/{x}/{y}" = ["x", "y"]
    ∧ templateMatch "a/{x}/{y}" "a/{x}/{y}" = some [("x", ""), ("y", "")]
    ∧ patMatch (parsePat "a/([^/]+)/([^/]+)".toList) "a/1/2".toList = some ["1", "2"]
    ∧ templateRegexSource "file:///logs/{date}" = "^file:///logs/{date}$" := by
  refine ⟨?_, ?_, ?_, ?_, ?_, ?_, ?_⟩ <;>
    simp [templateRegexSource, templateMatch, patMatch, parsePat, substAux, escapeChars,
      regexSpecials, extractTemplateParams, extractParamsAux, lbrace, rbrace, groupChars,
      runLen, List.asString, List.enum, List.enumFrom, List.findSome?,
      List.range_succ, List.findSome?_cons]

/-! ## Claim C7: exponential backoff delays -/

/-- Claim C7: the backoff delay for attempt `n` equals
`min(initialDelayMs * backoffMultiplier^(n-1), maxDelayMs)` plus the
jitter term `delay * jitter * uniform(-1,1)`, clamped to `≥ 0` and
rounded to the nearest integer; with `initialDelayMs = 1000`,
`backoffMultiplier = 2`, `jitter = 0` the delay for attempt `n` is
exactly `min(1000 * 2^(n-1), maxDelayMs)`. -/
theorem c7_backoff_delay :
    (∀ (i m b j rand : ℚ) (n : Nat),
      calculateDelay i m b j rand n =
        jsRound (max 0 (min (i * b ^ (n - 1)) m + min (i * b ^ (n - 1)) m * j * (rand * 2 - 1))))
    ∧ (∀ (maxD : ℕ) (rand : ℚ) (n : Nat), 1 ≤ n →
      calculateDelay 1000 maxD 2 0 rand n = min (1000 * 2 ^ (n - 1) : ℤ) maxD) := by
  constructor
  · intro i m b j rand n
    rfl
  · intro maxD rand n hn
    simp only [calculateDelay, jsRound]
    have hz : (min (1000 * 2 ^ (n - 1) : ℚ) maxD) * 0 * (rand * 2 - 1) = 0 := by ring
    rw [hz, add_zero]
    have hnn : (0 : ℚ) ≤ min (1000 * 2 ^ (n - 1) : ℚ) maxD := by
      apply le_min
      · positivity
      · exact_mod_cast Nat.zero_le maxD
    rw [max_eq_right hnn]
    have hcast : (min (1000 * 2 ^ (n - 1) : ℚ) maxD) =
        ((min (1000 * 2 ^ (n - 1) : ℤ) maxD : ℤ) : ℚ) := by
      push_cast
      rfl
    rw [hcast]
    rw [show ((min (1000 * 2 ^ (n - 1) : ℤ) maxD : ℤ) : ℚ) + 1 / 2 =
        1 / 2 + ((min (1000 * 2 ^ (n - 1) : ℤ) maxD : ℤ) : ℚ) from by ring]
    rw [Int.floor_add_int]
    norm_num

/-- Witness for C7: attempts 5 and 7 with `maxDelayMs = 30000` give
`16000` and the cap `30000`. -/
theorem c7_witness :
    calculateDelay 1000 ((30000 : ℕ) : ℚ) 2 0 (1 / 3) 5 = 16000
    ∧ calculateDelay 1000 ((30000 : ℕ) : ℚ) 2 0 (1 / 3) 7 = 30000 := by
  constructor
  · have h := c7_backoff_delay.2 30000 (1 / 3) 5 (by norm_num)
    rw [h]; decide
  · have h := c7_backoff_delay.2 30000 (1 / 3) 7 (by norm_num)
    rw [h]; decide

end MCPForge
namespace MCPForge

/-! ## Claim C5: timeout race -/

theorem toStep_settled {α : Type} (name : String) (ms : Nat) (st : TOState α) (e : TOEvent α)
    (h : st.settled = true) : toStep name ms st e = st := by
  cases e <;> simp [toStep, h]

theorem toRun_absorb {α : Type} (name : String) (ms : Nat) (st : TOState α)
    (h : st.settled = true) (evs : List (TOEvent α)) :
    evs.foldl (toStep name ms) st = st := by
  induction evs with
  | nil => rfl
  | cons e evs ih => rw [List.foldl_cons, toStep_settled name ms st e h, ih]

/-- Claim C5: under the timeout middleware, if the downstream
continuation settles before the timer fires, the timer is cancelled and
the downstream outcome (result or rejection) is propagated unchanged; if
the timer fires first, the middleware resolves (does not reject) with the
standard timeout error envelope, and any later downstream result or
rejection is never observed (the settled flag discards it). -/
theorem c5_timeout_race :
    (∀ (α : Type) (name : String) (ms : Nat) (v : α) (rest : List (TOEvent α)),
      toRun name ms (TOEvent.dsResolve v :: rest) =
        { settled := true, timerActive := false,
          outcome := some (Except.ok (TimeoutResult.fromNext v)) })
    ∧ (∀ (α : Type) (name : String) (ms : Nat) (e : JSError) (rest : List (TOEvent α)),
      toRun name ms (TOEvent.dsReject e :: rest) =
        { settled := true, timerActive := false, outcome := some (Except.error e) })
    ∧ (∀ (α : Type) (name : String) (ms : Nat) (rest : List (TOEvent α)),
      toRun name ms (TOEvent.timerFire :: rest) =
        { settled := true, timerActive := true,
          outcome := some (Except.ok (TimeoutResult.timedOut (timeoutEnvelope name ms))) }) := by
  refine ⟨?_, ?_, ?_⟩
  · intro α name ms v rest
    unfold toRun
    rw [List.foldl_cons]
    rw [show toStep name ms TOState.init (TOEvent.dsResolve v) =
      ({ settled := true, timerActive := false,
         outcome := some (Except.ok (TimeoutResult.fromNext v)) } : TOState α) from rfl]
    exact toRun_absorb name ms _ rfl rest
  · intro α name ms e rest
    unfold toRun
    rw [List.foldl_cons]
    rw [show toStep name ms TOState.init (TOEvent.dsReject e) =
      ({ settled := true, timerActive := false,
         outcome := some (Except.error e) } : TOState α) from rfl]
    exact toRun_absorb name ms _ rfl rest
  · intro α name ms rest
    unfold toRun
    rw [List.foldl_cons]
    rw [show toStep name ms TOState.init (TOEvent.timerFire : TOEvent α) =
      ({ settled := true, timerActive := true,
         outcome := some (Except.ok (TimeoutResult.timedOut (timeoutEnvelope name ms))) } : TOState α) from rfl]
    exact toRun_absorb name ms _ rfl rest

end MCPForge
namespace MCPForge

/-! ## Claim C6: retry attempt bound -/

theorem retryGo_calls_le {α : Type} (sr : JSError → Bool) (next : Nat → Except JSError α) :
    ∀ (r idx : Nat), (retryGo sr next idx r).2 ≤ r + 1 := by
  intro r
  induction r with
  | zero =>
    intro idx
    unfold retryGo
    cases next idx <;> simp
  | succ r' ih =>
    intro idx
    unfold retryGo
    cases next idx with
    | ok v => simp
    | error e =>
      by_cases hsr : sr e = true
      · simp only [hsr, if_true]
        have := ih (idx + 1)
        omega
      · simp only [Bool.not_eq_true] at hsr
        simp [hsr]

theorem retryGo_all_fail {α : Type} (sr : JSError → Bool) (next : Nat → Except JSError α)
    (es : Nat → JSError) :
    ∀ (r idx : Nat),
      (∀ k, k ≤ r → next (idx + k) = Except.error (es (idx + k)) ∧ sr (es (idx + k)) = true) →
      retryGo sr next idx r = (Except.error (es (idx + r)), r + 1) := by
  intro r
  induction r with
  | zero =>
    intro idx h
    have h0 := h 0 (Nat.le_refl 0)
    rw [Nat.add_zero] at h0
    unfold retryGo
    simp [h0.1]
  | succ r' ih =>
    intro idx h
    have h0 := h 0 (Nat.zero_le _)
    rw [Nat.add_zero] at h0
    unfold retryGo
    rw [h0.1]
    simp only [h0.2, if_true]
    have hrec := ih (idx + 1) (fun k hk => by
      have := h (k + 1) (by omega)
      rwa [show idx + (k + 1) = idx + 1 + k by omega] at this)
    rw [hrec]
    simp only []
    rw [show idx + 1 + r' = idx + (r' + 1) by omega]

/-- Claim C6: under the retry middleware, `next()` is called at most
`maxRetries + 1` times; with no retries remaining the error is rethrown
after one call; after an exception with `shouldRetry` false the error is
rethrown immediately; after an exception with `shouldRetry` true and
attempts remaining, a retry occurs; when every attempt fails with a
retryable error, the last error is rethrown after `maxRetries + 1`
calls. -/
theorem c6_retry_attempt_bound :
    (∀ (α : Type) (maxRetries : Nat) (sr : JSError → Bool) (next : Nat → Except JSError α),
      (retryRun maxRetries sr next).2 ≤ maxRetries + 1)
    ∧ (∀ (α : Type) (sr : JSError → Bool) (next : Nat → Except JSError α) (idx : Nat) (e : JSError),
      next idx = Except.error e →
      retryGo sr next idx 0 = (Except.error e, 1))
    ∧ (∀ (α : Type) (sr : JSError → Bool) (next : Nat → Except JSError α) (idx r : Nat) (e : JSError),
      next idx = Except.error e → sr e = false →
      retryGo sr next idx r = (Except.error e, 1))
    ∧ (∀ (α : Type) (sr : JSError → Bool) (next : Nat → Except JSError α) (idx r : Nat) (e : JSError),
      next idx = Except.error e → sr e = true →
      retryGo sr next idx (r + 1) =
        ((retryGo sr next (idx + 1) r).1, (retryGo sr next (idx + 1) r).2 + 1))
    ∧ (∀ (α : Type) (maxRetries : Nat) (sr : JSError → Bool) (next : Nat → Except JSError α)
        (es : Nat → JSError),
      (∀ k, k ≤ maxRetries → next k = Except.error (es k) ∧ sr (es k) = true) →
      retryRun maxRetries sr next = (Except.error (es maxRetries), maxRetries + 1)) := by
  refine ⟨?_, ?_, ?_, ?_, ?_⟩
  · intro α maxRetries sr next
    exact retryGo_calls_le sr next maxRetries 0
  · intro α sr next idx e h
    unfold retryGo
    rw [h]
  · intro α sr next idx r e h hsr
    unfold retryGo
    rw [h]
    cases r with
    | zero => rfl
    | succ r' => simp [hsr]
  · intro α sr next idx r e h hsr
    rw [retryGo]
    rw [h]
    simp [hsr]
  · intro α maxRetries sr next es h
    unfold retryRun
    have := retryGo_all_fail sr next es maxRetries 0 (fun k hk => by simpa using h k hk)
    simpa using this

/-- Witness for C6 at concrete failing handlers. -/
theorem c6_witness :
    (retryRun 3 (fun _ => true) (fun i => (Except.error (JSError.errObj (toString i)) : Except JSError Nat))).2 ≤ 4
    ∧ retryGo (fun _ => true) (fun _ => (Except.error (JSError.errObj "z") : Except JSError Nat)) 0 0 =
        (Except.error (JSError.errObj "z"), 1)
    ∧ retryGo (fun _ => false) (fun _ => (Except.error (JSError.errObj "z") : Except JSError Nat)) 0 3 =
        (Except.error (JSError.errObj "z"), 1)
    ∧ retryGo (fun _ => true) (fun i => (Except.error (JSError.errObj (toString i)) : Except JSError Nat)) 0 3 =
        ((retryGo (fun _ => true) (fun i => (Except.error (JSError.errObj (toString i)) : Except JSError Nat)) 1 2).1,
         (retryGo (fun _ => true) (fun i => (Except.error (JSError.errObj (toString i)) : Except JSError Nat)) 1 2).2 + 1)
    ∧ retryRun 3 (fun _ => true) (fun i => (Except.error (JSError.errObj (toString i)) : Except JSError Nat)) =
        (Except.error (JSError.errObj "3"), 4) :=
  ⟨c6_retry_attempt_bound.1 Nat 3 _ _,
   c6_retry_attempt_bound.2.1 Nat _ _ 0 _ rfl,
   c6_retry_attempt_bound.2.2.1 Nat _ _ 0 3 _ rfl rfl,
   c6_retry_attempt_bound.2.2.2.1 Nat _ _ 0 2 _ rfl rfl,
   c6_retry_attempt_bound.2.2.2.2 Nat 3 _ _ (fun i => JSError.errObj (toString i))
     (fun _ _ => ⟨rfl, rfl⟩)⟩

end MCPForge
namespace MCPForge

/-! ## Claim C3: fixed-window rate limiting -/

theorem rateLimitStep_single_inWindow (maxR w now : Nat) (name k : String) (c R : Nat)
    (hnow : now < R) :
    rateLimitStep maxR w now name k [(k, { count := c, resetTime := R })] =
      if c < maxR then
        (RLOutcome.proceeded, [(k, { count := c + 1, resetTime := R })])
      else
        (RLOutcome.limited (R - now) (rateLimitEnvelope name (R - now)),
         [(k, { count := c, resetTime := R })]) := by
  unfold rateLimitStep
  simp [mget, mset, List.find?, Nat.not_le.mpr hnow]
  by_cases h : c < maxR
  · rw [if_neg (Nat.not_le.mpr h), if_pos h]
  · rw [if_pos (Nat.not_lt.mp h), if_neg h]

end MCPForge
namespace MCPForge

theorem rateLimitRun_single (maxR w : Nat) (name k : String) :
    ∀ (ts : List Nat) (n c R : Nat), c ≤ maxR → (∀ t ∈ ts, t < R) →
      rateLimitRun maxR w name k ts [(k, { count := c, resetTime := R })] =
        ((List.enumFrom n ts).map (fun p =>
          if p.1 - n + c < maxR then RLOutcome.proceeded
          else RLOutcome.limited (R - p.2) (rateLimitEnvelope name (R - p.2))),
         [(k, { count := min (c + ts.length) maxR, resetTime := R })]) := by
  intro ts
  induction ts with
  | nil =>
    intro n c R hc hall
    simp [rateLimitRun, Nat.min_eq_left hc]
  | cons t ts ih =>
    intro n c R hc hall
    have ht : t < R := hall t (List.mem_cons_self t ts)
    have hall2 : ∀ u ∈ ts, u < R := fun u hu => hall u (List.mem_cons_of_mem t hu)
    unfold rateLimitRun
    simp only [rateLimitStep_single_inWindow maxR w t name k c R ht]
    rw [List.enumFrom_cons]
    by_cases h : c < maxR
    · rw [if_pos h]
      simp only []
      rw [ih (n + 1) (c + 1) R h hall2]
      refine congrArg₂ Prod.mk (congrArg₂ List.cons ?_ ?_) ?_
      · simp [h]
      · apply List.map_congr_left
        intro p hp
        obtain ⟨i, x⟩ := p
        have hge : n + 1 ≤ i := by
          have := List.mk_mem_enumFrom_iff_le_and_getElem?_sub.mp hp
          exact this.1
        have heq : i - (n + 1) + (c + 1) = i - n + c := by omega
        rw [heq]
      · have heq : c + 1 + ts.length = c + (ts.length + 1) := by omega
        rw [heq]
        simp only [List.length_cons]
    · rw [if_neg h]
      simp only []
      rw [ih (n + 1) c R hc hall2]
      have hce : c = maxR := Nat.le_antisymm hc (Nat.not_lt.mp h)
      refine congrArg₂ Prod.mk (congrArg₂ List.cons ?_ ?_) ?_
      · simp [h]
      · apply List.map_congr_left
        intro p hp
        have h1 : ¬ (p.1 - (n + 1) + c < maxR) := by omega
        have h2 : ¬ (p.1 - n + c < maxR) := by omega
        rw [if_neg h1, if_neg h2]
      · have h1 : min (c + ts.length) maxR = maxR := by omega
        have h2 : min (c + (ts.length + 1)) maxR = maxR := by omega
        simp only [List.length_cons]
        rw [h1, h2]

/-- Claim C3: for a rate-limit key, within one window exactly the first
`maxRequests` calls proceed to `next()` (each incrementing the bucket
counter), and every later call arriving before the reset time is denied
without incrementing, returning the `isError` envelope and reporting
`retryAfterMs = resetTime - now`; a call arriving at or after the reset
time sees the bucket replaced by `{count: 0, resetTime: now + windowMs}`
before the limit is evaluated. -/
theorem c3_rate_limit_window :
    (∀ (maxR w : Nat) (name k : String) (t0 : Nat) (ts : List Nat),
      (∀ t ∈ ts, t < t0 + w) →
      rateLimitRun maxR w name k (t0 :: ts) [] =
        ((t0 :: ts).enum.map (fun p =>
          if p.1 < maxR then RLOutcome.proceeded
          else RLOutcome.limited ((t0 + w) - p.2) (rateLimitEnvelope name ((t0 + w) - p.2))),
         [(k, { count := min (ts.length + 1) maxR, resetTime := t0 + w })]))
    ∧ (∀ (maxR w now : Nat) (name k : String) (c R : Nat),
      now < R → maxR ≤ c →
      rateLimitStep maxR w now name k [(k, { count := c, resetTime := R })] =
        (RLOutcome.limited (R - now) (rateLimitEnvelope name (R - now)),
         [(k, { count := c, resetTime := R })]))
    ∧ (∀ (maxR w now : Nat) (name k : String) (b : Bucket),
      b.resetTime ≤ now →
      rateLimitStep maxR w now name k [(k, b)] =
        rateLimitStep maxR w now name k [(k, { count := 0, resetTime := now + w })]) := by
  refine ⟨?_, ?_, ?_⟩
  · intro maxR w name k t0 ts hall
    unfold rateLimitRun
    have hstep : rateLimitStep maxR w t0 name k [] =
        (if 0 < maxR then (RLOutcome.proceeded, [(k, { count := 1, resetTime := t0 + w })])
         else (RLOutcome.limited w (rateLimitEnvelope name w),
               [(k, { count := 0, resetTime := t0 + w })])) := by
      unfold rateLimitStep
      simp [mget, mset, List.find?]
      by_cases h : 0 < maxR
      · rw [if_neg (by omega), if_pos h]
      · rw [if_pos (by omega), if_neg h]
    simp only [hstep]
    by_cases h : 0 < maxR
    · rw [if_pos h]
      simp only []
      rw [rateLimitRun_single maxR w name k ts 1 1 (t0 + w) h hall]
      rw [List.enum_cons]
      refine congrArg₂ Prod.mk (congrArg₂ List.cons ?_ ?_) ?_
      · simp [h]
      · apply List.map_congr_left
        intro p hp
        obtain ⟨i, x⟩ := p
        have hge : 1 ≤ i := (List.mk_mem_enumFrom_iff_le_and_getElem?_sub.mp hp).1
        have heq : i - 1 + 1 = i := by omega
        rw [heq]
      · have heq : 1 + ts.length = ts.length + 1 := by omega
        rw [heq]
    · rw [if_neg h]
      simp only []
      rw [rateLimitRun_single maxR w name k ts 1 0 (t0 + w) (by omega) hall]
      rw [List.enum_cons]
      refine congrArg₂ Prod.mk (congrArg₂ List.cons ?_ ?_) ?_
      · simp only [if_neg h, Nat.add_sub_cancel_left]
      · apply List.map_congr_left
        intro p hp
        have h1 : ¬ (p.1 - 1 + 0 < maxR) := by omega
        have h2 : ¬ (p.1 < maxR) := by omega
        rw [if_neg h1, if_neg h2]
      · have h1 : min (0 + ts.length) maxR = min (ts.length + 1) maxR := by omega
        rw [h1]
  · intro maxR w now name k c R hnow hle
    rw [rateLimitStep_single_inWindow maxR w now name k c R hnow]
    rw [if_neg (by omega)]
  · intro maxR w now name k b hexp
    unfold rateLimitStep
    simp [mget, mset, List.find?, hexp]

/-- Witness for C3: two allowed calls and one denial in a window of 100ms
with `maxRequests = 2`; a denied call leaves the counter at 5; an expired
bucket is replaced before evaluation. -/
theorem c3_witness :
    rateLimitRun 2 100 "t" "k" [0, 10, 20] [] =
      ([RLOutcome.proceeded, RLOutcome.proceeded,
        RLOutcome.limited 80 (rateLimitEnvelope "t" 80)],
       [("k", { count := 2, resetTime := 100 })])
    ∧ rateLimitStep 2 100 30 "t" "k" [("k", { count := 5, resetTime := 90 })] =
        (RLOutcome.limited 60 (rateLimitEnvelope "t" 60),
         [("k", { count := 5, resetTime := 90 })])
    ∧ rateLimitStep 2 100 90 "t" "k" [("k", { count := 2, resetTime := 50 })] =
        rateLimitStep 2 100 90 "t" "k" [("k", { count := 0, resetTime := 190 })] := by
  refine ⟨?_, ?_, ?_⟩
  · have h := c3_rate_limit_window.1 2 100 "t" "k" 0 [10, 20] (by decide)
    rw [h]
    decide
  · have h := c3_rate_limit_window.2.1 2 100 30 "t" "k" 5 90 (by decide) (by decide)
    rw [h]
  · exact c3_rate_limit_window.2.2 2 100 90 "t" "k" { count := 2, resetTime := 50 } (by decide)

end MCPForge
namespace MCPForge

/-! ## Claims C4, C8, C10: the caching middleware -/

theorem cacheMw_hit {α : Type} (ttlMs maxEntries : Nat) (types : List HType)
    (keyGen : Option (Ctx → Option String)) (now : Nat) (ctx : Ctx)
    (st : CacheState α) (nextVal : Except JSError α) (key : String) (entry : CacheEntry α)
    (htype : types.contains ctx.htype = true)
    (hkey : cacheKey keyGen ctx = some key)
    (hentry : mget st.store key = some entry)
    (hfresh : now < entry.expiresAt) :
    cacheMw ttlMs maxEntries types keyGen now ctx st nextVal =
      (Except.ok entry.value, false,
       { st with accessOrder := updateAccessOrder st.accessOrder key }) := by
  have hmem : ctx.htype ∈ types := by simpa using htype
  unfold cacheMw
  rw [hkey]
  simp [hmem, hentry, hfresh]

theorem cacheMw_miss_stores {α : Type} (ttlMs maxEntries : Nat) (types : List HType)
    (keyGen : Option (Ctx → Option String)) (now : Nat) (ctx : Ctx)
    (st : CacheState α) (v : α) (key : String)
    (htype : types.contains ctx.htype = true)
    (hkey : cacheKey keyGen ctx = some key)
    (hmiss : ∀ e, mget st.store key = some e → e.expiresAt ≤ now) :
    cacheMw ttlMs maxEntries types keyGen now ctx st (Except.ok v) =
      (Except.ok v, true,
       { store := mset (evictIfNeeded maxEntries st).store key
           { value := v, expiresAt := now + ttlMs },
         accessOrder := updateAccessOrder (evictIfNeeded maxEntries st).accessOrder key }) := by
  have hmem : ctx.htype ∈ types := by simpa using htype
  unfold cacheMw
  rw [hkey]
  cases hm : mget st.store key with
  | none => simp [hmem, hm, cacheMw.cacheMiss]
  | some e =>
    have hle := hmiss e hm
    simp [hmem, hm, Nat.not_lt.mpr hle, cacheMw.cacheMiss]

theorem getLast?_updateAccessOrder (order : List String) (key : String) :
    (updateAccessOrder order key).getLast? = some key := by
  unfold updateAccessOrder
  exact List.getLast?_concat _

/-- Claim C4: if two calls produce the identical cache key and the second
call occurs before the first call's entry expires (within `ttlMs` of the
first miss), then the second call does not invoke `next()` and returns
exactly the value stored by the first call, leaving the store unchanged
and moving the key to the tail of the recency order. -/
theorem c4_cache_hit_within_ttl {α : Type} (ttlMs maxEntries : Nat) (types : List HType)
    (keyGen : Option (Ctx → Option String)) (now1 now2 : Nat) (ctx1 ctx2 : Ctx)
    (st : CacheState α) (key : String) (v : α) (nextVal2 : Except JSError α)
    (htype1 : types.contains ctx1.htype = true)
    (hkey1 : cacheKey keyGen ctx1 = some key)
    (hmiss : ∀ e, mget st.store key = some e → e.expiresAt ≤ now1)
    (htype2 : types.contains ctx2.htype = true)
    (hkey2 : cacheKey keyGen ctx2 = some key)
    (hlt : now2 < now1 + ttlMs) :
    (cacheMw ttlMs maxEntries types keyGen now1 ctx1 st (Except.ok v)).1 = Except.ok v
    ∧ (cacheMw ttlMs maxEntries types keyGen now1 ctx1 st (Except.ok v)).2.1 = true
    ∧ (cacheMw ttlMs maxEntries types keyGen now2 ctx2
        (cacheMw ttlMs maxEntries types keyGen now1 ctx1 st (Except.ok v)).2.2 nextVal2).1 =
        Except.ok v
    ∧ (cacheMw ttlMs maxEntries types keyGen now2 ctx2
        (cacheMw ttlMs maxEntries types keyGen now1 ctx1 st (Except.ok v)).2.2 nextVal2).2.1 =
        false
    ∧ (cacheMw ttlMs maxEntries types keyGen now2 ctx2
        (cacheMw ttlMs maxEntries types keyGen now1 ctx1 st (Except.ok v)).2.2 nextVal2).2.2.store =
        (cacheMw ttlMs maxEntries types keyGen now1 ctx1 st (Except.ok v)).2.2.store
    ∧ (cacheMw ttlMs maxEntries types keyGen now2 ctx2
        (cacheMw ttlMs maxEntries types keyGen now1 ctx1 st (Except.ok v)).2.2 nextVal2).2.2.accessOrder.getLast? =
        some key := by
  have h1 := cacheMw_miss_stores ttlMs maxEntries types keyGen now1 ctx1 st v key
    htype1 hkey1 hmiss
  have hget : mget (cacheMw ttlMs maxEntries types keyGen now1 ctx1 st (Except.ok v)).2.2.store key =
      some { value := v, expiresAt := now1 + ttlMs } := by
    rw [h1]
    exact mget_mset_self _ _ _
  have h2 := cacheMw_hit ttlMs maxEntries types keyGen now2 ctx2
    (cacheMw ttlMs maxEntries types keyGen now1 ctx1 st (Except.ok v)).2.2 nextVal2 key
    { value := v, expiresAt := now1 + ttlMs } htype2 hkey2 hget hlt
  refine ⟨by rw [h1], by rw [h1], by rw [h2], by rw [h2], by rw [h2], by rw [h2]; exact getLast?_updateAccessOrder _ _⟩

/-- Witness for C4: a miss at `t = 0` with TTL 100 and a hit at `t = 50`
returning the stored 42, not the downstream 99. -/
theorem c4_witness :
    (cacheMw 100 10 [HType.tool] none 0 { name := "n", argsJson := "a", htype := HType.tool }
      (CacheState.empty (α := Nat)) (Except.ok 42)).1 = Except.ok 42
    ∧ (cacheMw 100 10 [HType.tool] none 0 { name := "n", argsJson := "a", htype := HType.tool }
      (CacheState.empty (α := Nat)) (Except.ok 42)).2.1 = true
    ∧ (cacheMw 100 10 [HType.tool] none 50 { name := "n", argsJson := "a", htype := HType.tool }
        (cacheMw 100 10 [HType.tool] none 0 { name := "n", argsJson := "a", htype := HType.tool }
          (CacheState.empty (α := Nat)) (Except.ok 42)).2.2 (Except.ok 99)).1 = Except.ok 42
    ∧ (cacheMw 100 10 [HType.tool] none 50 { name := "n", argsJson := "a", htype := HType.tool }
        (cacheMw 100 10 [HType.tool] none 0 { name := "n", argsJson := "a", htype := HType.tool }
          (CacheState.empty (α := Nat)) (Except.ok 42)).2.2 (Except.ok 99)).2.1 = false := by
  have h := c4_cache_hit_within_ttl (α := Nat) 100 10 [HType.tool] none 0 50
    { name := "n", argsJson := "a", htype := HType.tool }
    { name := "n", argsJson := "a", htype := HType.tool }
    CacheState.empty "tool:n:a" 42 (Except.ok 99)
    (by decide) (by decide) (by intro e he; simp [mget, CacheState.empty] at he) (by decide)
    (by decide) (by decide)
  exact ⟨h.1, h.2.1, h.2.2.1, h.2.2.2.1⟩

theorem length_mdel_add_count {α : Type} (h : String) :
    ∀ (store : List (String × α)),
      (mdel store h).length + (store.map Prod.fst).count h = store.length := by
  intro store
  induction store with
  | nil => simp [mdel]
  | cons p t ih =>
    by_cases hp : p.1 = h
    · simp only [mdel, List.filter_cons, hp] at ih ⊢
      simp [List.count_cons, hp, ← ih]
      omega
    · simp only [mdel, List.filter_cons] at ih ⊢
      simp [List.count_cons, hp, ← ih]
      omega

theorem evictLoop_no_evict {α : Type} (maxEntries : Nat) (order : List String)
    (store : List (String × CacheEntry α)) (h : store.length < maxEntries) :
    evictLoop maxEntries order store = (order, store) := by
  cases order with
  | nil => rfl
  | cons a t =>
    unfold evictLoop
    rw [if_neg (Nat.not_le.mpr h)]

theorem evictIfNeeded_at_capacity {α : Type} (maxEntries : Nat) (st : CacheState α)
    (h : String) (t : List String)
    (hne : ¬ h = "")
    (horder : st.accessOrder = h :: t)
    (hsize : st.store.length = maxEntries)
    (hcount : (st.store.map Prod.fst).count h = 1) :
    evictIfNeeded maxEntries st =
      { store := mdel st.store h, accessOrder := t } := by
  have hlen : (mdel st.store h).length + 1 = st.store.length := by
    have := length_mdel_add_count h st.store
    omega
  unfold evictIfNeeded
  rw [horder]
  unfold evictLoop
  rw [if_pos (by omega), if_neg hne]
  rw [evictLoop_no_evict maxEntries t (mdel st.store h) (by omega)]

/-- Claim C8 counterexample: the claim states that a miss-write at
capacity evicts exactly the head of the access-order list, for *every*
cache state at capacity.  The source's eviction loop guards the delete
with JS truthiness (`if (oldest) store.delete(oldest)`), so when the head
key is the empty string — reachable via a custom `keyGenerator` returning
`""`, which the middleware caches (only `null` bypasses) — the head's
store entry is *kept*, the head is only dropped from the access order,
and the loop evicts the next key instead.  Concretely: at capacity 2 with
access order `["", "k2"]`, inserting the new key `"k3"` keeps `""` in the
store and evicts `"k2"`, which is not the head. -/
theorem c8_counterexample :
    (cacheMw (α := Nat) 1000 2 [HType.tool] (some (fun c => some c.name)) 2
        { name := "k3", argsJson := "", htype := HType.tool }
        { store := [("", { value := 1, expiresAt := 1000 }),
                    ("k2", { value := 2, expiresAt := 1000 })],
          accessOrder := ["", "k2"] }
        (Except.ok 3)).2.2 =
      { store := [("", { value := 1, expiresAt := 1000 }),
                  ("k3", { value := 3, expiresAt := 1002 })],
        accessOrder := ["k3"] }
    ∧ mget (cacheMw (α := Nat) 1000 2 [HType.tool] (some (fun c => some c.name)) 2
        { name := "k3", argsJson := "", htype := HType.tool }
        { store := [("", { value := 1, expiresAt := 1000 }),
                    ("k2", { value := 2, expiresAt := 1000 })],
          accessOrder := ["", "k2"] }
        (Except.ok 3)).2.2.store "" = some { value := 1, expiresAt := 1000 }
    ∧ mget (cacheMw (α := Nat) 1000 2 [HType.tool] (some (fun c => some c.name)) 2
        { name := "k3", argsJson := "", htype := HType.tool }
        { store := [("", { value := 1, expiresAt := 1000 }),
                    ("k2", { value := 2, expiresAt := 1000 })],
          accessOrder := ["", "k2"] }
        (Except.ok 3)).2.2.store "k2" = none :=
  ⟨rfl, rfl, rfl⟩

/-- Claim C8 (amended): at capacity (store size = maxEntries, with the
access-order list tracking exactly the store keys), a miss-write of a new
distinct key evicts exactly the head of the access-order list — the
least-recently-used key — *provided the head key is non-empty* (the
source's `if (oldest)` truthiness guard skips the store delete for an
empty-string head, whose entry survives while eviction falls through to
the next key); and (second conjunct) LRU is not FIFO: from an empty cache
of capacity 2, insert `k1` then `k2`, read `k1` (a hit, moving it to the
tail), then insert a new key `k3`: the evicted key is `k2`, not the
oldest-inserted `k1`. -/
theorem c8_lru_eviction :
    (∀ (α : Type) (ttlMs maxEntries : Nat) (types : List HType)
        (keyGen : Option (Ctx → Option String)) (now : Nat) (ctx : Ctx)
        (st : CacheState α) (key h : String) (t : List String) (v : α),
      types.contains ctx.htype = true →
      cacheKey keyGen ctx = some key →
      mget st.store key = none →
      ¬ h = "" →
      st.accessOrder = h :: t →
      st.store.length = maxEntries →
      (st.store.map Prod.fst).count h = 1 →
      cacheMw ttlMs maxEntries types keyGen now ctx st (Except.ok v) =
        (Except.ok v, true,
         { store := mset (mdel st.store h) key { value := v, expiresAt := now + ttlMs },
           accessOrder := updateAccessOrder t key }))
    ∧ (cacheMw (α := Nat) 1000 2 [HType.tool] (some (fun c => some c.name)) 2
        { name := "k3", argsJson := "", htype := HType.tool }
        (cacheMw (α := Nat) 1000 2 [HType.tool] (some (fun c => some c.name)) 1
          { name := "k1", argsJson := "", htype := HType.tool }
          (cacheMw (α := Nat) 1000 2 [HType.tool] (some (fun c => some c.name)) 0
            { name := "k2", argsJson := "", htype := HType.tool }
            (cacheMw (α := Nat) 1000 2 [HType.tool] (some (fun c => some c.name)) 0
              { name := "k1", argsJson := "", htype := HType.tool }
              CacheState.empty (Except.ok 1)).2.2
            (Except.ok 2)).2.2
          (Except.ok 99)).2.2
        (Except.ok 3)).2.2 =
      { store := [("k1", { value := 1, expiresAt := 1000 }),
                  ("k3", { value := 3, expiresAt := 1002 })],
        accessOrder := ["k1", "k3"] } := by
  constructor
  · intro α ttlMs maxEntries types keyGen now ctx st key h t v htype hkey hnew hne horder hsize hcount
    rw [cacheMw_miss_stores ttlMs maxEntries types keyGen now ctx st v key htype hkey
      (by intro e he; rw [hnew] at he; exact absurd he (by simp))]
    rw [evictIfNeeded_at_capacity maxEntries st h t hne horder hsize hcount]
  · rfl

/-- Witness for C8: the eviction step applied at a state whose access
order `[k2, k1]` differs from its insertion order `[k1, k2]`. -/
theorem c8_witness :
    cacheMw (α := Nat) 1000 2 [HType.tool] (some (fun c => some c.name)) 2
        { name := "k3", argsJson := "", htype := HType.tool }
        { store := [("k1", { value := 1, expiresAt := 1000 }),
                    ("k2", { value := 2, expiresAt := 1000 })],
          accessOrder := ["k2", "k1"] }
        (Except.ok 3) =
      (Except.ok 3, true,
       { store := [("k1", { value := 1, expiresAt := 1000 }),
                   ("k3", { value := 3, expiresAt := 1002 })],
         accessOrder := ["k1", "k3"] }) := by
  have hc := c8_lru_eviction.1 Nat 1000 2 [HType.tool]
    (some (fun c => some c.name)) 2 { name := "k3", argsJson := "", htype := HType.tool }
    { store := [("k1", { value := 1, expiresAt := 1000 }),
                ("k2", { value := 2, expiresAt := 1000 })],
      accessOrder := ["k2", "k1"] }
    "k3" "k2" ["k1"] 3 (by decide) rfl (by decide) (by decide) rfl rfl (by decide)
  rw [hc]
  rfl

/-- Claim C10: the `clear` function returned by `createCache` empties a
separate map that the middleware never reads or writes, leaving the
middleware's own cache state unchanged: a key cached before `clear()`
still produces a hit (downstream is not re-invoked and the stored value
is returned) within its TTL. -/
theorem c10_clear_noop_for_middleware :
    (∀ (α : Type) (s : CreateCacheState α),
      createCacheClear s = { mid := s.mid, exposed := [] })
    ∧ (∀ (α : Type) (ttlMs maxEntries : Nat) (types : List HType)
        (keyGen : Option (Ctx → Option String)) (now1 now2 : Nat) (ctx1 ctx2 : Ctx)
        (s : CreateCacheState α) (key : String) (v : α) (nextVal2 : Except JSError α),
      types.contains ctx1.htype = true →
      cacheKey keyGen ctx1 = some key →
      (∀ e, mget s.mid.store key = some e → e.expiresAt ≤ now1) →
      types.contains ctx2.htype = true →
      cacheKey keyGen ctx2 = some key →
      now2 < now1 + ttlMs →
      (createCacheMw ttlMs maxEntries types keyGen now2 ctx2
        (createCacheClear
          (createCacheMw ttlMs maxEntries types keyGen now1 ctx1 s (Except.ok v)).2.2)
        nextVal2).1 = Except.ok v
      ∧ (createCacheMw ttlMs maxEntries types keyGen now2 ctx2
          (createCacheClear
            (createCacheMw ttlMs maxEntries types keyGen now1 ctx1 s (Except.ok v)).2.2)
          nextVal2).2.1 = false) := by
  constructor
  · intro α s
    rfl
  · intro α ttlMs maxEntries types keyGen now1 now2 ctx1 ctx2 s key v nextVal2
      htype1 hkey1 hmiss htype2 hkey2 hlt
    have h1 := cacheMw_miss_stores ttlMs maxEntries types keyGen now1 ctx1 s.mid v key
      htype1 hkey1 hmiss
    have hget : mget ((cacheMw ttlMs maxEntries types keyGen now1 ctx1 s.mid
        (Except.ok v)).2.2).store key =
        some { value := v, expiresAt := now1 + ttlMs } := by
      rw [h1]
      exact mget_mset_self _ _ _
    have h2 := cacheMw_hit ttlMs maxEntries types keyGen now2 ctx2
      (cacheMw ttlMs maxEntries types keyGen now1 ctx1 s.mid (Except.ok v)).2.2 nextVal2 key
      { value := v, expiresAt := now1 + ttlMs } htype2 hkey2 hget hlt
    constructor
    · show (cacheMw ttlMs maxEntries types keyGen now2 ctx2
        (cacheMw ttlMs maxEntries types keyGen now1 ctx1 s.mid (Except.ok v)).2.2 nextVal2).1 =
        Except.ok v
      rw [h2]
    · show (cacheMw ttlMs maxEntries types keyGen now2 ctx2
        (cacheMw ttlMs maxEntries types keyGen now1 ctx1 s.mid (Except.ok v)).2.2 nextVal2).2.1 =
        false
      rw [h2]

/-- Witness for C10: cache 42 at `t = 0`, `clear()`, and the call at
`t = 50` still hits. -/
theorem c10_witness :
    (createCacheMw (α := Nat) 100 10 [HType.tool] none 50
        { name := "n", argsJson := "a", htype := HType.tool }
        (createCacheClear
          (createCacheMw (α := Nat) 100 10 [HType.tool] none 0
            { name := "n", argsJson := "a", htype := HType.tool }
            { mid := CacheState.empty, exposed := [] } (Except.ok 42)).2.2)
        (Except.ok 99)).1 = Except.ok 42
    ∧ (createCacheMw (α := Nat) 100 10 [HType.tool] none 50
        { name := "n", argsJson := "a", htype := HType.tool }
        (createCacheClear
          (createCacheMw (α := Nat) 100 10 [HType.tool] none 0
            { name := "n", argsJson := "a", htype := HType.tool }
            { mid := CacheState.empty, exposed := [] } (Except.ok 42)).2.2)
        (Except.ok 99)).2.1 = false :=
  c10_clear_noop_for_middleware.2 Nat 100 10 [HType.tool] none 0 50
    { name := "n", argsJson := "a", htype := HType.tool }
    { name := "n", argsJson := "a", htype := HType.tool }
    { mid := CacheState.empty, exposed := [] } "tool:n:a" 42 (Except.ok 99)
    (by decide) (by decide) (by intro e he; simp [mget, CacheState.empty] at he)
    (by decide) (by decide) (by decide)

end MCPForge
